import Mathlib

/-!
Verification of the ModelLCD1602 menu engine (`src/menu.c`).

Shallow embedding of the hierarchical menu engine: menu items live in an
arena (creation order = index order), C pointers become `Option Nat`
indices into that arena, and the static functions of `menu.c`
(`s_menu_rechain`, `s_menu_add_item`, `s_rotary_encoder_callback`,
`s_menu_position_handling`, `s_push_button_callback`,
`s_long_push_button_callback`, `s_menu_set_child`, `s_create_new_item`,
`s_menu_free_items`) become pure state transformers.  Side effects that
leave the engine (display rendering via `printMenu`, invocation of a menu
item's callback) are modelled as an emitted event list.  32-bit machine
arithmetic of the encoder handler is modelled with `Nat`/`Int` and
explicit reduction modulo `2^32`.
-/

namespace MenuModel

/-! Configuration constants (`src/include/menu.h`). -/

def MENU_ITEM_TITLE_LEN : Nat := 16

def MENU_SIZE : Nat := 32

def ENCODER_INPUT_FILTER : Nat := 2

def MENU_FLAG_GOTO_PARENT : Nat := 0x80

def MENU_FLAG_EDIT_DATA : Nat := 0x40

def MENU_FLAG_GOTO_CHILD : Nat := 0x20

/-! Data model.

The struct `menu_item_t`: `title` is the 16-byte `char` buffer (a list of byte
values); the five pointers become optional arena indices; the function
pointer `callback` becomes an optional opaque identifier. -/

structure MenuItem where
  title : List Nat
  prev : Option Nat
  next : Option Nat
  folowing : Option Nat
  parent : Option Nat
  child : Option Nat
  callback : Option Nat
  data : Nat
  flags : Nat
deriving Repr, DecidableEq

/-- An all-zero `menu_item_t` (as produced by the zero-initialised static
array `s_menu_items[MENU_SIZE] = {0}`). -/
def zeroMenuItem : MenuItem :=
  { title := List.replicate MENU_ITEM_TITLE_LEN 0
    prev := none, next := none, folowing := none
    parent := none, child := none, callback := none
    data := 0, flags := 0 }

/-- The struct `rotenc_data_t`: `current`/`prev` are `uint32_t` (kept as `Nat` values
`< 2^32`), `delta` is `int32_t` (kept as an `Int` in `[-2^31, 2^31)`). -/
structure RotencData where
  current : Nat
  prev : Nat
  delta : Int
deriving Repr, DecidableEq

/-- The struct `menu_handle_t`.  Here `static_array_pos` is carried unconditionally; it is
only consulted by the fixed-capacity allocator. -/
structure MenuHandle where
  rotenc : RotencData
  current : Option Nat
  start : Option Nat
  static_array_pos : Nat
deriving Repr, DecidableEq

/-- The whole mutable state of `menu.c`: the handle plus the arena of all
items allocated so far (index = creation order). -/
structure MenuState where
  handle : MenuHandle
  items : List MenuItem
deriving Repr, DecidableEq

/-- Zero-initialised state of the translation unit (`static` storage). -/
def initState : MenuState :=
  { handle := { rotenc := ⟨0, 0, 0⟩, current := none, start := none, static_array_pos := 0 }
    items := [] }

/-- Observable effects of a handler run: a render request
(`printMenu(current->title, current->next->title)`, with `none` marking a
title the C code would read through an invalid pointer) or the invocation
of an item's callback. -/
inductive MenuEvent where
  | render (currentTitle nextTitle : Option (List Nat))
  | callbackCall (id : Nat)
deriving Repr, DecidableEq

/-! Arena writes. -/

/-- Write through an item pointer: replace the item at index `i` by `f`
of it; a dangling index writes nothing (the C would be undefined there —
no reachable state does this). -/
def setItem : List MenuItem → Nat → (MenuItem → MenuItem) → List MenuItem
  | [], _, _ => []
  | x :: xs, 0, f => f x :: xs
  | x :: xs, n + 1, f => x :: setItem xs n f

/-! Item store (`s_create_new_item`).

Fixed mode takes an item from the zero-initialised static array
`s_menu_items` (slots are handed out once, in order, so a fresh slot still
holds its initialiser value `zeroMenuItem`) and fails once
`static_array_pos` reaches the configured capacity (`MENU_SIZE` in the
header; kept as a parameter `cap`).  Dynamic mode calls `malloc`, whose
cell contents are indeterminate: the model takes the junk contents as an
argument and stores them unchanged (no initialisation is performed). -/

inductive StoreMode where
  | staticMem (cap : Nat)
  | dynamicMem
deriving Repr, DecidableEq

def s_create_new_item (mode : StoreMode) (junk : MenuItem) (st : MenuState) :
    Option (Nat × MenuState) :=
  match mode with
  | .staticMem cap =>
      if st.handle.static_array_pos ≥ cap then
        none
      else
        some (st.items.length,
          { st with
              items := st.items ++ [zeroMenuItem]
              handle := { st.handle with static_array_pos := st.handle.static_array_pos + 1 } })
  | .dynamicMem =>
      some (st.items.length, { st with items := st.items ++ [junk] })

/-! Chain builder (`s_menu_rechain`). -/

/-- The walk of `s_menu_rechain`: follow the `folowing` chain from the
cursor; for every item whose `parent` equals `p`, record it as `first` if
none is recorded yet, set its `prev` to the previously matched item and
that item's `next` to it.  Returns the rewritten arena together with the
final `first` and `prev` of the C function.  The loop is bounded by
explicit fuel; every reachable state finishes within `length + 1` steps
because `folowing` indices strictly increase along the chain. -/
def rechainGo (p : Option Nat) : Nat → Option Nat → Option Nat → Option Nat →
    List MenuItem → List MenuItem × Option Nat × Option Nat
  | 0, _, first, prevAcc, items => (items, first, prevAcc)
  | _ + 1, none, first, prevAcc, items => (items, first, prevAcc)
  | fuel + 1, some i, first, prevAcc, items =>
      match items[i]? with
      | none => (items, first, prevAcc)
      | some it =>
          if it.parent = p then
            rechainGo p fuel it.folowing (if first = none then some i else first) (some i)
              (match prevAcc with
               | some j =>
                   setItem (setItem items i fun x => { x with prev := prevAcc }) j
                     fun x => { x with next := some i }
               | none => setItem items i fun x => { x with prev := prevAcc })
          else
            rechainGo p fuel it.folowing first prevAcc items

/-- Closing writes of `s_menu_rechain` on the walk's result
(`if (first) first->prev = prev; if (prev) prev->next = first;`). -/
def rechainClose (r : List MenuItem × Option Nat × Option Nat) : List MenuItem :=
  match r.2.2 with
  | some l =>
      setItem
        (match r.2.1 with
         | some f => setItem r.1 f fun x => { x with prev := r.2.2 }
         | none => r.1)
        l fun x => { x with next := r.2.1 }
  | none =>
      match r.2.1 with
      | some f => setItem r.1 f fun x => { x with prev := r.2.2 }
      | none => r.1

/-- Function `s_menu_rechain(parent)`: walk the full chain from `start`, then close
the ring. -/
def s_menu_rechain (p : Option Nat) (st : MenuState) : MenuState :=
  { st with
      items := rechainClose (rechainGo p (st.items.length + 1) st.handle.start none none st.items) }

/-! Menu graph construction (`s_menu_add_item`, `s_menu_set_child`). -/

/-- Behaviour of `strncpy(dst, src, n)` into an `n`-byte buffer: exactly `n` bytes are
written — the source truncated to `n` bytes, zero-padded if the source is
shorter.  No terminator is added when the source fills the buffer. -/
def strncpyTitle (src : List Nat) (n : Nat) : List Nat :=
  src.take n ++ List.replicate (n - src.length) 0

/-- One request to `s_menu_add_item(title, parent, callback, flags)`.  `junk`
is the indeterminate content of the `malloc` cell consumed in dynamic
mode (ignored in fixed mode). -/
structure AddReq where
  title : List Nat
  parent : Option Nat
  callback : Option Nat
  flags : Nat
  junk : MenuItem
deriving Repr, DecidableEq

/-- Field assignments performed by `s_menu_add_item` on the fresh item:
`strncpy(item->title, title, MENU_ITEM_TITLE_LEN); item->parent = parent;
item->child = NULL; item->flags = flags; item->callback = callback;
item->folowing = NULL;`. -/
def populateItem (req : AddReq) (it : MenuItem) : MenuItem :=
  { it with
      title := strncpyTitle req.title MENU_ITEM_TITLE_LEN
      parent := req.parent
      child := none
      flags := req.flags
      callback := req.callback
      folowing := none }

def s_menu_add_item (mode : StoreMode) (req : AddReq) (st : MenuState) :
    Option Nat × MenuState :=
  match s_create_new_item mode req.junk st with
  | none => (none, st)
  | some (idx, st1) =>
      let st2 := { st1 with items := setItem st1.items idx (populateItem req) }
      let st3 :=
        match st2.handle.current with
        | some c => { st2 with items := setItem st2.items c (fun it => { it with folowing := some idx }) }
        | none => st2
      let st4 := { st3 with handle := { st3.handle with current := some idx } }
      let st5 :=
        match st4.handle.start with
        | none => { st4 with handle := { st4.handle with start := some idx } }
        | some _ => st4
      (some idx, s_menu_rechain req.parent st5)

/-- Function `s_menu_set_child(item, child)`: guard against a null item, set its
`child` and or-in `MENU_FLAG_GOTO_CHILD`. -/
def s_menu_set_child (item : Option Nat) (child : Option Nat) (st : MenuState) : MenuState :=
  match item with
  | none => st
  | some i =>
      { st with items := setItem st.items i (fun it =>
          { it with child := child, flags := it.flags ||| MENU_FLAG_GOTO_CHILD }) }

/-- Run a sequence of `s_menu_add_item` calls from the zeroed initial
state (the construction phase driven by `Menu_Init`). -/
def buildState (mode : StoreMode) (reqs : List AddReq) : MenuState :=
  reqs.foldl (fun st r => (s_menu_add_item mode r st).2) initState

/-! Display (`s_display_menu`). -/

/-- Render request `printMenu(current->title, current->next->title)`. -/
def s_display_menu (st : MenuState) : MenuEvent :=
  let t1 := st.handle.current.bind fun i => (st.items[i]?).map MenuItem.title
  let t2 := st.handle.current.bind fun i =>
    (st.items[i]?).bind fun it => it.next.bind fun j => (st.items[j]?).map MenuItem.title
  .render t1 t2

/-! Navigation state machine. -/

/-- Function `s_menu_position_handling`: move `current` along the ring according to
the stored `delta`, then render. -/
def s_menu_position_handling (st : MenuState) : MenuState × List MenuEvent :=
  let st' :=
    if st.handle.rotenc.delta > 0 then
      match st.handle.current with
      | some i =>
          match st.items[i]? with
          | some it => { st with handle := { st.handle with current := it.next } }
          | none => st
      | none => st
    else if st.handle.rotenc.delta < 0 then
      match st.handle.current with
      | some i =>
          match st.items[i]? with
          | some it => { st with handle := { st.handle with current := it.prev } }
          | none => st
      | none => st
    else st
  (st', [s_display_menu st'])

/-! Helpers for 32-bit machine arithmetic. -/

/-- Value of a `uint32_t` reinterpreted as `int32_t` (two's complement). -/
def toInt32 (n : Nat) : Int :=
  let m := n % 4294967296
  if m < 2147483648 then (m : Int) else (m : Int) - 4294967296

/-- Wrap an integer to the `int32_t` value range (two's complement). -/
def swrap32 (z : Int) : Int :=
  let m := z % 4294967296
  if m < 2147483648 then m else m - 4294967296

/-- Wrap an integer to the `uint32_t` value range. -/
def uwrap32 (z : Int) : Nat :=
  (z % 4294967296).toNat

/-- Function `s_rotary_encoder_callback(current)`: reject any raw reading that is
not a multiple of `ENCODER_INPUT_FILTER`; otherwise update the encoder
state (`delta = (int)(current / 2) - (int)rotenc.current;
prev = rotenc.current; rotenc.current += delta;`), then either invoke the
focused item's callback or fall through to position handling. -/
def s_rotary_encoder_callback (c : Nat) (st : MenuState) : MenuState × List MenuEvent :=
  if (c / ENCODER_INPUT_FILTER) * ENCODER_INPUT_FILTER ≠ c then
    (st, [])
  else
    let delta := swrap32 (toInt32 (c / 2) - toInt32 st.handle.rotenc.current)
    let r1 : RotencData :=
      { current := uwrap32 ((st.handle.rotenc.current : Int) + delta)
        prev := st.handle.rotenc.current
        delta := delta }
    let st1 := { st with handle := { st.handle with rotenc := r1 } }
    match st1.handle.current with
    | some i =>
        match st1.items[i]? with
        | some it =>
            match it.callback with
            | some cb => (st1, [.callbackCall cb])
            | none => s_menu_position_handling st1
        | none => (st1, [])
    | none => (st1, [])

/-- Function `s_push_button_callback`: descend to the child when it exists and
`MENU_FLAG_GOTO_CHILD` is set, else ascend to the parent when it exists
and `MENU_FLAG_GOTO_PARENT` is set, else stay; always render. -/
def s_push_button_callback (st : MenuState) : MenuState × List MenuEvent :=
  let st' :=
    match st.handle.current with
    | some i =>
        match st.items[i]? with
        | some it =>
            if it.child ≠ none ∧ it.flags &&& MENU_FLAG_GOTO_CHILD = MENU_FLAG_GOTO_CHILD then
              { st with handle := { st.handle with current := it.child } }
            else if it.parent ≠ none ∧ it.flags &&& MENU_FLAG_GOTO_PARENT = MENU_FLAG_GOTO_PARENT then
              { st with handle := { st.handle with current := it.parent } }
            else st
        | none => st
    | none => st
  (st', [s_display_menu st'])

/-- Function `s_long_push_button_callback`: jump to the parent when it exists, else
to `start`; render in both branches, ignoring all capability flags. -/
def s_long_push_button_callback (st : MenuState) : MenuState × List MenuEvent :=
  let st' :=
    match st.handle.current with
    | some i =>
        match st.items[i]? with
        | some it =>
            match it.parent with
            | some pp => { st with handle := { st.handle with current := some pp } }
            | none => { st with handle := { st.handle with current := st.handle.start } }
        | none => st
    | none => st
  (st', [s_display_menu st'])

/-! Lifecycle manager (`s_menu_free_items`, dynamic mode). -/

/-- The teardown loop `while (item->folowing) { next = item->folowing;
free(item); item = next; }` starting at `start`.  Returns the indices
passed to `free`, in order.  Fuel bounds the loop as in `rechainGo`. -/
def s_menu_free_items_go : Nat → Option Nat → List MenuItem → List Nat → List Nat
  | 0, _, _, acc => acc.reverse
  | _ + 1, none, _, acc => acc.reverse
  | fuel + 1, some i, items, acc =>
      match items[i]? with
      | none => acc.reverse
      | some it =>
          match it.folowing with
          | none => acc.reverse
          | some j => s_menu_free_items_go fuel (some j) items (i :: acc)

/-- Function `s_menu_free_items()`: the indices released by the teardown walk. -/
def s_menu_free_items (st : MenuState) : List Nat :=
  s_menu_free_items_go (st.items.length + 1) st.handle.start st.items []

/-! Proof-side vocabulary: spec-level descriptions of the construction
state, used to state and prove the ring invariants.  These are not
translations of C code. -/

/-- Element of a list of indices at position `k` (0 outside the range). -/
def nth (m : List Nat) (k : Nat) : Nat :=
  (m[k]?).getD 0

/-- Indices `≥ t`, in ascending order, of the arena items whose `parent`
is `p` — the items the `s_menu_rechain` walk starting at index `t` would
match. -/
def matchedFrom (p : Option Nat) (items : List MenuItem) (t : Nat) : List Nat :=
  (List.range' t (items.length - t)).filter fun i =>
    decide ((items[i]?).map MenuItem.parent = some p)

/-- Indices, in creation order, of the requests that carry parent `p` —
the expected membership of the sibling ring of `p`. -/
def groupIdx (reqs : List AddReq) (p : Option Nat) : List Nat :=
  (List.range reqs.length).filter fun i =>
    decide ((reqs[i]?).map AddReq.parent = some p)

/-- The in-loop writes of the `s_menu_rechain` walk, restricted to the
matched index list: link each matched item to its predecessor. -/
def linkRun : List Nat → Option Nat → List MenuItem → List MenuItem
  | [], _, items => items
  | i :: rest, pA, items =>
      linkRun rest (some i)
        (match pA with
         | some j =>
             setItem (setItem items i fun x => { x with prev := pA }) j
               fun x => { x with next := some i }
         | none => setItem items i fun x => { x with prev := pA })

/-- Value of the `first` accumulator of the walk after consuming the
matched list `m`. -/
def firstAfter (first : Option Nat) (m : List Nat) : Option Nat :=
  match first with
  | some f => some f
  | none => m.head?

/-- Value of the `prev` accumulator of the walk after consuming the
matched list `m`. -/
def lastAfter (pA : Option Nat) (m : List Nat) : Option Nat :=
  match m.getLast? with
  | some l => some l
  | none => pA

/-- The `folowing` fields form the build-order chain `0 → 1 → ⋯ → none`,
exactly the shape every construction state has. -/
def FolChain (items : List MenuItem) : Prop :=
  ∀ i it, items[i]? = some it →
    it.folowing = if i + 1 = items.length then none else some (i + 1)

/-- Every sibling ring matches its group: the `k`-th member of the group
of parent `p` points back to the `(k-1)`-th and forward to the `(k+1)`-th
member, cyclically. -/
def ringSpec (reqs : List AddReq) (items : List MenuItem) : Prop :=
  ∀ p k, k < (groupIdx reqs p).length →
    (items[nth (groupIdx reqs p) k]?).map MenuItem.prev =
      some (some (nth (groupIdx reqs p)
        ((k + (groupIdx reqs p).length - 1) % (groupIdx reqs p).length))) ∧
    (items[nth (groupIdx reqs p) k]?).map MenuItem.next =
      some (some (nth (groupIdx reqs p) ((k + 1) % (groupIdx reqs p).length)))

/-- Full invariant of every construction state reached by running the
requests `reqs` successfully from `initState`. -/
structure ConstrInv (reqs : List AddReq) (st : MenuState) : Prop where
  len : st.items.length = reqs.length
  start : st.handle.start = if reqs.length = 0 then none else some 0
  current : st.handle.current = if reqs.length = 0 then none else some (reqs.length - 1)
  folow : ∀ i, i < reqs.length →
    (st.items[i]?).map MenuItem.folowing =
      some (if i + 1 = reqs.length then none else some (i + 1))
  par : ∀ i : Nat, (st.items[i]?).map MenuItem.parent = (reqs[i]?).map AddReq.parent
  rings : ringSpec reqs st.items

/-- Item list of the state reached just before the `s_menu_rechain` call
inside `s_menu_add_item`, when at least one item already exists: append
the fresh cell, populate it at index `rs.length`, and link the previous
most-recently-added item's `folowing` to it. -/
def items5Of (rs : List AddReq) (r : AddReq) (st : MenuState) (fresh : MenuItem) : List MenuItem :=
  setItem (setItem (st.items ++ [fresh]) rs.length (populateItem r))
    (rs.length - 1) fun it => { it with folowing := some rs.length }

/-- The prefix of the request list that succeeds under the given storage
mode (fixed capacity truncates; dynamic mode accepts all). -/
def succReqs (mode : StoreMode) (reqs : List AddReq) : List AddReq :=
  match mode with
  | .staticMem cap => reqs.take cap
  | .dynamicMem => reqs

/-- Expected value of `static_array_pos` after running `reqs`. -/
def posOf (mode : StoreMode) (reqs : List AddReq) : Nat :=
  match mode with
  | .staticMem _ => (succReqs mode reqs).length
  | .dynamicMem => 0

/-! Concrete fixtures used by the witnesses and counterexamples. -/

/-- Request with the given title bytes, parent and flags, no callback,
and an all-zero `malloc` cell. -/
def mkReq (t : List Nat) (p : Option Nat) (fl : Nat) : AddReq :=
  { title := t, parent := p, callback := none, flags := fl, junk := zeroMenuItem }

/-- Three root-level requests A, B, C (titles as single bytes). -/
def reqsABC : List AddReq :=
  [mkReq [65] none 0, mkReq [66] none 0, mkReq [67] none 0]

/-- Two root items plus one child of item 0 — the child ring is a
singleton. -/
def reqsWithChild : List AddReq :=
  [mkReq [65] none 0, mkReq [66] none 0, mkReq [67] (some 0) 0]

/-- A 16-byte title (bytes 65..80) with no zero byte: one byte too long
to leave room for a terminator. -/
def longTitle : List Nat :=
  List.range' 65 16

/-- Indeterminate contents of a `malloc` cell: a non-zero `data` field. -/
def junkItem : MenuItem :=
  { zeroMenuItem with data := 7 }

/-- State after the fixed-capacity allocator hands out its single slot of
a capacity-1 store. -/
def stAlloc1 : MenuState :=
  { handle := { rotenc := ⟨0, 0, 0⟩, current := none, start := none, static_array_pos := 1 }
    items := [zeroMenuItem] }

/-- Menu item with the given title, ring links, parent/child and flags. -/
def mkItem (t : List Nat) (pv nx par ch : Option Nat) (fl : Nat) (cb : Option Nat) : MenuItem :=
  { title := t, prev := pv, next := nx, folowing := none
    parent := par, child := ch, callback := cb, data := 0, flags := fl }

/-- Two-item root ring with no callbacks, focused on item 0. -/
def stNav : MenuState :=
  { handle := { rotenc := ⟨0, 0, 0⟩, current := some 0, start := some 0, static_array_pos := 0 }
    items := [mkItem [83] (some 1) (some 1) none none 0 none,
              mkItem [84] (some 0) (some 0) none none 0 none] }

/-- Single-item ring whose item carries callback id 7, focused on it. -/
def stCb : MenuState :=
  { handle := { rotenc := ⟨0, 0, 0⟩, current := some 0, start := some 0, static_array_pos := 0 }
    items := [mkItem [83] (some 0) (some 0) none none 0 (some 7)] }

/-- Scenario state: item 0 "Options" can descend to its child item 1
"Back", which can ascend back to its parent item 0; focus on "Options". -/
def stOpts : MenuState :=
  { handle := { rotenc := ⟨0, 0, 0⟩, current := some 0, start := some 0, static_array_pos := 0 }
    items := [mkItem [79] (some 0) (some 0) none (some 1) MENU_FLAG_GOTO_CHILD none,
              mkItem [66] (some 1) (some 1) (some 0) none MENU_FLAG_GOTO_PARENT none] }

/-- The same scenario state focused on "Back" (after the descent). -/
def stOptsBack : MenuState :=
  { stOpts with handle := { stOpts.handle with current := some 1 } }

/-- Root-only state: a single parentless item, focused. -/
def stRoot : MenuState :=
  { handle := { rotenc := ⟨0, 0, 0⟩, current := some 0, start := some 0, static_array_pos := 0 }
    items := [mkItem [83] (some 0) (some 0) none none 0 none] }

/-! Basic lemmas: arena writes and index lists. -/

theorem length_setItem (l : List MenuItem) (i : Nat) (f : MenuItem → MenuItem) :
    (setItem l i f).length = l.length := by
  induction l generalizing i with
  | nil => rfl
  | cons x xs ih =>
    cases i with
    | zero => rfl
    | succ n => simp [setItem, ih]

theorem getElem?_setItem (l : List MenuItem) (i : Nat) (f : MenuItem → MenuItem) (j : Nat) :
    (setItem l i f)[j]? = if j = i then (l[i]?).map f else l[j]? := by
  induction l generalizing i j with
  | nil => simp [setItem]
  | cons x xs ih =>
    cases i with
    | zero =>
      cases j with
      | zero => simp [setItem]
      | succ m => simp [setItem]
    | succ n =>
      cases j with
      | zero => simp [setItem]
      | succ m => simpa [setItem] using ih n m

theorem nth_cons_zero (a : Nat) (l : List Nat) : nth (a :: l) 0 = a := by simp [nth]

theorem nth_cons_succ (a : Nat) (l : List Nat) (k : Nat) : nth (a :: l) (k + 1) = nth l k := by simp [nth]

theorem nth_mem (m : List Nat) (k : Nat) (h : k < m.length) : nth m k ∈ m := by
  induction m generalizing k with
  | nil => simp at h
  | cons a l ih =>
    cases k with
    | zero => simp [nth]
    | succ n =>
      rw [nth_cons_succ]
      exact List.mem_cons_of_mem _ (ih n (by simpa using h))

theorem nth_inj (m : List Nat) (hm : m.Nodup) (k k' : Nat) (hk : k < m.length)
    (hk' : k' < m.length) (h : nth m k = nth m k') : k = k' := by
  induction m generalizing k k' with
  | nil => simp at hk
  | cons a l ih =>
    have ha : a ∉ l := (List.nodup_cons.mp hm).1
    have hl : l.Nodup := (List.nodup_cons.mp hm).2
    cases k with
    | zero =>
      cases k' with
      | zero => rfl
      | succ n' =>
        exfalso
        apply ha
        have hv : a = nth l n' := by simpa [nth] using h
        exact hv ▸ nth_mem l n' (by simpa using hk')
    | succ n =>
      cases k' with
      | zero =>
        exfalso
        apply ha
        have hv : a = nth l n := by simpa [nth] using h.symm
        exact hv ▸ nth_mem l n (by simpa using hk)
      | succ n' =>
        have := ih hl n n' (by simpa using hk) (by simpa using hk') (by simpa [nth] using h)
        omega

theorem getLast?_cons_ne_none (a : Nat) (l : List Nat) : (a :: l).getLast? ≠ none := by
  rw [List.getLast?_eq_getElem?]
  have h : (a :: l).length - 1 < (a :: l).length := by simp
  rw [List.getElem?_eq_getElem h]
  exact Option.some_ne_none _

/-! Lemmas about `matchedFrom`. -/

theorem matchedFrom_stop (p : Option Nat) (items : List MenuItem) (t : Nat)
    (h : items.length ≤ t) : matchedFrom p items t = [] := by
  have h0 : items.length - t = 0 := by omega
  simp [matchedFrom, h0]

theorem matchedFrom_step (p : Option Nat) (items : List MenuItem) (t : Nat)
    (ht : t < items.length) (it : MenuItem) (hit : items[t]? = some it) :
    matchedFrom p items t =
      if it.parent = p then t :: matchedFrom p items (t + 1)
      else matchedFrom p items (t + 1) := by
  have h1 : items.length - t = (items.length - (t + 1)) + 1 := by omega
  rw [matchedFrom, h1, List.range'_succ, List.filter_cons]
  by_cases hp : it.parent = p
  · simp [matchedFrom, hit, hp]
  · simp [matchedFrom, hit, hp]

theorem mem_matchedFrom (p : Option Nat) (items : List MenuItem) (t x : Nat) :
    x ∈ matchedFrom p items t ↔
      (t ≤ x ∧ x < items.length) ∧ (items[x]?).map MenuItem.parent = some p := by
  simp only [matchedFrom, List.mem_filter, List.mem_range'_1, decide_eq_true_eq]
  constructor
  · rintro ⟨⟨h1, h2⟩, h3⟩
    exact ⟨⟨h1, by omega⟩, h3⟩
  · rintro ⟨⟨h1, h2⟩, h3⟩
    exact ⟨⟨h1, by omega⟩, h3⟩

theorem matchedFrom_nodup (p : Option Nat) (items : List MenuItem) (t : Nat) :
    (matchedFrom p items t).Nodup :=
  List.Nodup.filter _ (List.nodup_range' t (items.length - t))

theorem matchedFrom_congr (p : Option Nat) (items items2 : List MenuItem) (t : Nat)
    (hlen : items2.length = items.length)
    (hpar : ∀ j : Nat, (items2[j]?).map MenuItem.parent = (items[j]?).map MenuItem.parent) :
    matchedFrom p items2 t = matchedFrom p items t := by
  unfold matchedFrom
  rw [hlen]
  exact List.filter_congr fun x _ => by simp [hpar x]

/-! Lemmas about the walk accumulators. -/

theorem firstAfter_cons (first : Option Nat) (i : Nat) (m : List Nat) :
    firstAfter first (i :: m) = firstAfter (if first = none then some i else first) m := by
  cases first <;> simp [firstAfter]

theorem lastAfter_cons (pA : Option Nat) (i : Nat) (m : List Nat) :
    lastAfter pA (i :: m) = lastAfter (some i) m := by
  cases m with
  | nil => simp [lastAfter]
  | cons a l =>
    rcases h : (a :: l).getLast? with _ | y
    · exact absurd h (getLast?_cons_ne_none a l)
    · simp [lastAfter, List.getLast?_cons_cons, h]

/-! Lemmas about `linkRun`. -/

theorem length_linkRun (m : List Nat) : ∀ (pA : Option Nat) (items : List MenuItem),
    (linkRun m pA items).length = items.length := by
  induction m with
  | nil => intro pA items; rfl
  | cons i rest ih =>
    intro pA items
    cases pA <;> simp [linkRun, ih, length_setItem]

theorem getElem?_linkRun_notMem (m : List Nat) : ∀ (pA : Option Nat) (items : List MenuItem)
    (j : Nat), j ∉ m → pA ≠ some j → (linkRun m pA items)[j]? = items[j]? := by
  induction m with
  | nil => intro pA items j _ _; rfl
  | cons i rest ih =>
    intro pA items j hj hpa
    have hji : j ≠ i := fun h => hj (h ▸ List.mem_cons_self i rest)
    cases pA with
    | none =>
      simp only [linkRun]
      rw [ih (some i) _ j (fun h => hj (List.mem_cons_of_mem _ h)) (by simpa using Ne.symm hji)]
      simp [getElem?_setItem, hji]
    | some a =>
      have haj : j ≠ a := fun h => hpa (by rw [h])
      simp only [linkRun]
      rw [ih (some i) _ j (fun h => hj (List.mem_cons_of_mem _ h)) (by simpa using Ne.symm hji)]
      simp [getElem?_setItem, hji, haj]

theorem getElem?_linkRun_cons_pA (i : Nat) (rest : List Nat) (a : Nat) (items : List MenuItem)
    (ha : a ∉ i :: rest) :
    (linkRun (i :: rest) (some a) items)[a]? =
      (items[a]?).map fun x => { x with next := some i } := by
  have hai : a ≠ i := fun h => ha (h ▸ List.mem_cons_self i rest)
  simp only [linkRun]
  rw [getElem?_linkRun_notMem rest (some i) _ a (fun h => ha (List.mem_cons_of_mem _ h))
      (by simpa using Ne.symm hai)]
  simp [getElem?_setItem, hai]

theorem getElem?_linkRun_mem (m : List Nat) : ∀ (pA : Option Nat) (items : List MenuItem)
    (k : Nat), m.Nodup → (∀ a, pA = some a → a ∉ m) → k < m.length →
    (linkRun m pA items)[nth m k]? = (items[nth m k]?).map fun x =>
      { x with
          prev := if k = 0 then pA else some (nth m (k - 1))
          next := if k + 1 < m.length then some (nth m (k + 1)) else x.next } := by
  induction m with
  | nil => intro pA items k _ _ hk; simp at hk
  | cons i rest ih =>
    intro pA items k hnd hpa hk
    have hirest : i ∉ rest := (List.nodup_cons.mp hnd).1
    have hrest : rest.Nodup := (List.nodup_cons.mp hnd).2
    cases k with
    | zero =>
      rw [nth_cons_zero]
      cases pA with
      | none =>
        simp only [linkRun]
        cases rest with
        | nil =>
          simp only [linkRun]
          rw [getElem?_setItem, if_pos rfl]
          cases hx : items[i]? with
          | none => rfl
          | some x => simp
        | cons r0 rest' =>
          rw [getElem?_linkRun_cons_pA r0 rest' i _ hirest]
          rw [getElem?_setItem, if_pos rfl]
          cases hx : items[i]? with
          | none => rfl
          | some x => simp [nth_cons_succ, nth_cons_zero]
      | some a =>
        have hai : a ≠ i := fun h => hpa a rfl (h ▸ List.mem_cons_self i rest)
        simp only [linkRun]
        cases rest with
        | nil =>
          simp only [linkRun]
          rw [getElem?_setItem, if_neg (Ne.symm hai), getElem?_setItem, if_pos rfl]
          cases hx : items[i]? with
          | none => rfl
          | some x => simp
        | cons r0 rest' =>
          rw [getElem?_linkRun_cons_pA r0 rest' i _ hirest]
          rw [getElem?_setItem, if_neg (Ne.symm hai), getElem?_setItem, if_pos rfl]
          cases hx : items[i]? with
          | none => rfl
          | some x => simp [nth_cons_succ, nth_cons_zero]
    | succ n =>
      rw [nth_cons_succ]
      have hk' : n < rest.length := by simpa using hk
      have hv : nth rest n ∈ rest := nth_mem rest n hk'
      have hvi : nth rest n ≠ i := fun h => hirest (h ▸ hv)
      cases pA with
      | none =>
        simp only [linkRun]
        rw [ih (some i) _ n hrest (fun b hb => by injection hb with h; exact h ▸ hirest) hk']
        rw [getElem?_setItem, if_neg hvi]
        cases hx : items[nth rest n]? with
        | none => rfl
        | some x =>
          cases n with
          | zero =>
            simp [nth_cons_succ, nth_cons_zero,
              show 2 < rest.length + 1 ↔ 1 < rest.length by omega]
          | succ n2 => simp [nth_cons_succ]
      | some a =>
        have hva : nth rest n ≠ a := fun h => hpa a rfl (List.mem_cons_of_mem i (h ▸ hv))
        simp only [linkRun]
        rw [ih (some i) _ n hrest (fun b hb => by injection hb with h; exact h ▸ hirest) hk']
        rw [getElem?_setItem, if_neg hva, getElem?_setItem, if_neg hvi]
        cases hx : items[nth rest n]? with
        | none => rfl
        | some x =>
          cases n with
          | zero =>
            simp [nth_cons_succ, nth_cons_zero,
              show 2 < rest.length + 1 ↔ 1 < rest.length by omega]
          | succ n2 => simp [nth_cons_succ]

/-! Preservation of `folowing` and `parent` under the writes. -/

theorem folChain_setItem (items : List MenuItem) (i : Nat) (f : MenuItem → MenuItem)
    (hf : ∀ x, (f x).folowing = x.folowing) (h : FolChain items) :
    FolChain (setItem items i f) := by
  intro j it hj
  rw [length_setItem]
  rw [getElem?_setItem] at hj
  by_cases hji : j = i
  · subst hji
    rw [if_pos rfl] at hj
    cases hx : items[j]? with
    | none => rw [hx] at hj; simp at hj
    | some y =>
      rw [hx] at hj
      have hfy : f y = it := by simpa using hj
      rw [← hfy, hf]
      exact h j y hx
  · rw [if_neg hji] at hj
    exact h j it hj

theorem map_parent_setItem (items : List MenuItem) (i : Nat) (f : MenuItem → MenuItem)
    (hf : ∀ x, (f x).parent = x.parent) :
    ∀ j : Nat, ((setItem items i f)[j]?).map MenuItem.parent = (items[j]?).map MenuItem.parent := by
  intro j
  rw [getElem?_setItem]
  by_cases hji : j = i
  · subst hji
    rw [if_pos rfl]
    cases hx : items[j]? with
    | none => rfl
    | some y => simp [hf]
  · rw [if_neg hji]

/-! Modular index arithmetic of ring positions. -/

theorem ringIdx_prev_mod (k r : Nat) (h1 : 1 ≤ k) (h2 : k < r) : (k + r - 1) % r = k - 1 := by
  have h3 : k + r - 1 = (k - 1) + 1 * r := by omega
  rw [h3, Nat.add_mul_mod_self_right]
  exact Nat.mod_eq_of_lt (by omega)

theorem ringIdx_first_prev_mod (r : Nat) (h : 1 ≤ r) : (0 + r - 1) % r = r - 1 := by
  have h3 : 0 + r - 1 = r - 1 := by omega
  rw [h3]
  exact Nat.mod_eq_of_lt (by omega)

theorem ringIdx_last_prev_mod (r : Nat) (h : 2 ≤ r) : (r - 1 + r - 1) % r = r - 2 := by
  have h3 : r - 1 + r - 1 = (r - 2) + 1 * r := by omega
  rw [h3, Nat.add_mul_mod_self_right]
  exact Nat.mod_eq_of_lt (by omega)

theorem ringIdx_last_next_mod (r : Nat) (h : 1 ≤ r) : (r - 1 + 1) % r = 0 := by
  have h3 : r - 1 + 1 = r := by omega
  rw [h3, Nat.mod_self]

/-! Factorization of the `s_menu_rechain` walk over chain-shaped states. -/

theorem rechainGo_eq (p : Option Nat) : ∀ (fuel : Nat) (items : List MenuItem) (t : Nat)
    (first pA : Option Nat), FolChain items → items.length - t < fuel →
    rechainGo p fuel (if t < items.length then some t else none) first pA items =
      (linkRun (matchedFrom p items t) pA items,
       firstAfter first (matchedFrom p items t),
       lastAfter pA (matchedFrom p items t)) := by
  intro fuel
  induction fuel with
  | zero => intro items t first pA _ hfuel; omega
  | succ fuel ih =>
    intro items t first pA hch hfuel
    by_cases ht : t < items.length
    · rw [if_pos ht]
      obtain ⟨it, hit⟩ : ∃ it, items[t]? = some it := ⟨items[t], List.getElem?_eq_getElem ht⟩
      have hfol : it.folowing = if t + 1 < items.length then some (t + 1) else none := by
        have h := hch t it hit
        by_cases h2 : t + 1 = items.length
        · rw [h, if_pos h2, if_neg (by omega)]
        · rw [h, if_neg h2, if_pos (by omega)]
      rw [matchedFrom_step p items t ht it hit]
      simp only [rechainGo, hit]
      by_cases hp : it.parent = p
      · rw [if_pos hp, if_pos hp]
        cases pA with
        | none =>
          simp only [linkRun]
          rw [firstAfter_cons, lastAfter_cons]
          have hch2 : FolChain (setItem items t fun x => { x with prev := none }) :=
            folChain_setItem items t _ (fun _ => rfl) hch
          have hlen2 : (setItem items t fun x => { x with prev := none }).length =
              items.length := length_setItem items t _
          have hm2 : matchedFrom p (setItem items t fun x => { x with prev := none }) (t + 1) =
              matchedFrom p items (t + 1) :=
            matchedFrom_congr p items _ (t + 1) hlen2 (map_parent_setItem items t _ fun _ => rfl)
          rw [hfol, show (if t + 1 < items.length then some (t + 1) else none) =
              (if t + 1 < (setItem items t fun x => { x with prev := none }).length
                then some (t + 1) else none) by rw [hlen2]]
          rw [ih _ (t + 1) _ (some t) hch2 (by omega)]
          rw [hm2]
        | some j =>
          simp only [linkRun]
          rw [firstAfter_cons, lastAfter_cons]
          have hch2 : FolChain (setItem (setItem items t fun x => { x with prev := some j }) j
              fun x => { x with next := some t }) :=
            folChain_setItem _ j _ (fun _ => rfl)
              (folChain_setItem items t _ (fun _ => rfl) hch)
          have hlen2 : (setItem (setItem items t fun x => { x with prev := some j }) j
              fun x => { x with next := some t }).length = items.length := by
            rw [length_setItem, length_setItem]
          have hm2 : matchedFrom p (setItem (setItem items t fun x => { x with prev := some j }) j
              fun x => { x with next := some t }) (t + 1) = matchedFrom p items (t + 1) := by
            apply matchedFrom_congr p items _ (t + 1) hlen2
            intro jj
            rw [map_parent_setItem _ j (fun x => { x with next := some t }) (fun _ => rfl) jj,
              map_parent_setItem items t (fun x => { x with prev := some j }) (fun _ => rfl) jj]
          rw [hfol, show (if t + 1 < items.length then some (t + 1) else none) =
              (if t + 1 < (setItem (setItem items t fun x => { x with prev := some j }) j
                fun x => { x with next := some t }).length then some (t + 1) else none)
              by rw [hlen2]]
          rw [ih _ (t + 1) _ (some t) hch2 (by omega)]
          rw [hm2]
      · rw [if_neg hp, if_neg hp]
        rw [hfol]
        exact ih items (t + 1) first pA hch (by omega)
    · rw [if_neg ht, matchedFrom_stop p items t (by omega)]
      cases first <;> cases pA <;> simp [rechainGo, linkRun, firstAfter, lastAfter]

theorem lastAfter_none (m : List Nat) : lastAfter none m = m.getLast? := by
  cases h : m.getLast? <;> simp [lastAfter, h]

theorem rechain_handle (p : Option Nat) (st : MenuState) :
    (s_menu_rechain p st).handle = st.handle := rfl

/-- Pointwise behaviour of `s_menu_rechain` on any chain-shaped state:
items outside the matched group keep their value, and the `k`-th matched
item gets exactly the cyclic ring links of the group, nothing else
changing. -/
theorem rechain_spec (p : Option Nat) (st : MenuState) (hch : FolChain st.items)
    (hstart : st.handle.start = if 0 < st.items.length then some 0 else none) :
    (s_menu_rechain p st).items.length = st.items.length ∧
    (∀ j, j ∉ matchedFrom p st.items 0 → (s_menu_rechain p st).items[j]? = st.items[j]?) ∧
    (∀ k, k < (matchedFrom p st.items 0).length →
      (s_menu_rechain p st).items[nth (matchedFrom p st.items 0) k]? =
        (st.items[nth (matchedFrom p st.items 0) k]?).map fun x =>
          { x with
              prev := some (nth (matchedFrom p st.items 0)
                ((k + (matchedFrom p st.items 0).length - 1) % (matchedFrom p st.items 0).length))
              next := some (nth (matchedFrom p st.items 0)
                ((k + 1) % (matchedFrom p st.items 0).length)) }) := by
  have hgo := rechainGo_eq p (st.items.length + 1) st.items 0 none none hch (by omega)
  rw [← hstart] at hgo
  have hre : (s_menu_rechain p st).items = rechainClose
      (linkRun (matchedFrom p st.items 0) none st.items,
       firstAfter none (matchedFrom p st.items 0),
       lastAfter none (matchedFrom p st.items 0)) := by
    simp only [s_menu_rechain]
    rw [hgo]
  have hnd0 : (matchedFrom p st.items 0).Nodup := matchedFrom_nodup p st.items 0
  cases hm : matchedFrom p st.items 0 with
  | nil =>
    rw [hm] at hre
    have hid : (s_menu_rechain p st).items = st.items := by rw [hre]; rfl
    refine ⟨by rw [hid], fun j _ => by rw [hid], fun k hk => by simp at hk⟩
  | cons m0 m' =>
    rw [hm] at hre hnd0
    obtain ⟨lv, hlv⟩ : ∃ lv, (m0 :: m').getLast? = some lv := by
      cases h : (m0 :: m').getLast? with
      | none => exact absurd h (getLast?_cons_ne_none m0 m')
      | some y => exact ⟨y, rfl⟩
    have hlv2 : lv = nth (m0 :: m') ((m0 :: m').length - 1) := by
      rw [List.getLast?_eq_getElem?] at hlv
      simp only [nth]
      rw [hlv]
      rfl
    have hre2 : (s_menu_rechain p st).items =
        setItem (setItem (linkRun (m0 :: m') none st.items) m0 fun x => { x with prev := some lv })
          lv fun x => { x with next := some m0 } := by
      rw [hre]
      simp only [rechainClose, firstAfter, lastAfter_none, hlv, List.head?_cons]
    have hL : (st.items.length : Nat) = (linkRun (m0 :: m') none st.items).length :=
      (length_linkRun (m0 :: m') none st.items).symm
    refine ⟨?_, ?_, ?_⟩
    · rw [hre2, length_setItem, length_setItem, length_linkRun]
    · intro j hj
      have hjm0 : j ≠ m0 := fun h => hj (h ▸ List.mem_cons_self m0 m')
      have hjlv : j ≠ lv := by
        intro h
        exact hj (h ▸ (hlv2 ▸ nth_mem (m0 :: m') ((m0 :: m').length - 1) (by simp)))
      rw [hre2, getElem?_setItem, if_neg hjlv, getElem?_setItem, if_neg hjm0,
        getElem?_linkRun_notMem (m0 :: m') none st.items j hj (by simp)]
    · intro k hk
      have hval := getElem?_linkRun_mem (m0 :: m') none st.items k hnd0
        (fun a ha => absurd ha (by simp)) hk
      rw [hre2]
      by_cases hR1 : (m0 :: m').length = 1
      · have hm'nil : m' = [] := by
          cases m' with
          | nil => rfl
          | cons a l => simp at hR1
        subst hm'nil
        have hk0 : k = 0 := by
          simp only [List.length_singleton] at hk
          omega
        subst hk0
        have hlvm0 : lv = m0 := by rw [hlv2]; simp [nth]
        rw [show nth [m0] 0 = m0 from by simp [nth]] at hval ⊢
        rw [getElem?_setItem, if_pos hlvm0.symm, getElem?_setItem, if_pos hlvm0, hval]
        cases hx : st.items[m0]? with
        | none => rfl
        | some x => simp [nth, hlvm0]
      · have hR2 : 2 ≤ (m0 :: m').length := by
          simp only [List.length_cons]
          simp only [List.length_cons] at hR1
          omega
        have hne01 : nth (m0 :: m') 0 ≠ nth (m0 :: m') ((m0 :: m').length - 1) := by
          intro h
          have := nth_inj (m0 :: m') hnd0 0 ((m0 :: m').length - 1) (by omega) (by omega) h
          omega
        have hm'ne : m' ≠ [] := by
          intro h
          subst h
          simp at hR2
        by_cases hk0 : k = 0
        · subst hk0
          rw [nth_cons_zero] at hval ⊢
          have hvlv : m0 ≠ lv := by
            rw [hlv2]
            intro h
            exact hne01 ((nth_cons_zero m0 m').trans h)
          rw [getElem?_setItem, if_neg hvlv, getElem?_setItem, if_pos rfl, hval]
          rw [ringIdx_first_prev_mod (m0 :: m').length (by omega),
            Nat.mod_eq_of_lt (show 0 + 1 < (m0 :: m').length by omega)]
          cases hx : st.items[m0]? with
          | none => rfl
          | some x =>
            simp [hlv2, hm'ne, show 0 + 1 < (m0 :: m').length from by omega]
        · by_cases hklast : k = (m0 :: m').length - 1
          · subst hklast
            rw [← hlv2] at hval ⊢
            have hlvm0ne : lv ≠ m0 := by
              rw [hlv2]
              intro h
              have h2 : nth (m0 :: m') ((m0 :: m').length - 1) = nth (m0 :: m') 0 := by
                rw [nth_cons_zero]
                exact h
              have := nth_inj (m0 :: m') hnd0 ((m0 :: m').length - 1) 0 (by omega) (by omega) h2
              omega
            rw [getElem?_setItem, if_pos rfl, getElem?_setItem, if_neg hlvm0ne, hval]
            rw [ringIdx_last_prev_mod (m0 :: m').length hR2,
              ringIdx_last_next_mod (m0 :: m').length (by omega)]
            cases hx : st.items[lv]? with
            | none => rfl
            | some x =>
              simp [hm'ne, show ¬((m0 :: m').length - 1 = 0) from by omega,
                show ¬((m0 :: m').length - 1 + 1 < (m0 :: m').length) from by omega,
                show (m0 :: m').length - 1 - 1 = (m0 :: m').length - 2 from by omega,
                nth_cons_zero]
          · have hkpos : 1 ≤ k := by omega
            have hvm0 : nth (m0 :: m') k ≠ m0 := by
              intro h
              exact hk0 (nth_inj (m0 :: m') hnd0 k 0 (by omega) (by omega)
                (h.trans (nth_cons_zero m0 m').symm))
            have hvlv : nth (m0 :: m') k ≠ lv := by
              rw [hlv2]
              intro h
              exact hklast (nth_inj (m0 :: m') hnd0 k ((m0 :: m').length - 1)
                (by omega) (by omega) h)
            rw [getElem?_setItem, if_neg hvlv, getElem?_setItem, if_neg hvm0, hval]
            rw [ringIdx_prev_mod k (m0 :: m').length hkpos (by omega),
              Nat.mod_eq_of_lt (show k + 1 < (m0 :: m').length by omega)]
            cases hx : st.items[nth (m0 :: m') k]? with
            | none => rfl
            | some x =>
              have hkm' : k < m'.length := by
                simp only [List.length_cons] at hk hklast
                omega
              simp [hm'ne, hkm', show k + 1 < (m0 :: m').length from by omega,
                show ¬(k = 0) from hk0]

/-! Group index lemmas and the bridge to the walk's matched list. -/

theorem nth_of_mem (m : List Nat) (x : Nat) (h : x ∈ m) :
    ∃ k, k < m.length ∧ nth m k = x := by
  induction m with
  | nil => simp at h
  | cons a l ih =>
    rcases List.mem_cons.mp h with h1 | h2
    · exact ⟨0, by simp, by rw [nth_cons_zero]; exact h1.symm⟩
    · obtain ⟨k, hk, hnth⟩ := ih h2
      exact ⟨k + 1, by simpa using hk, by rw [nth_cons_succ]; exact hnth⟩

theorem mem_groupIdx (rs : List AddReq) (p : Option Nat) (x : Nat) :
    x ∈ groupIdx rs p ↔ x < rs.length ∧ (rs[x]?).map AddReq.parent = some p := by
  simp [groupIdx, List.mem_filter, List.mem_range]

theorem groupIdx_append_ne (rs : List AddReq) (r : AddReq) (p : Option Nat)
    (h : r.parent ≠ p) : groupIdx (rs ++ [r]) p = groupIdx rs p := by
  unfold groupIdx
  have h1 : (rs ++ [r]).length = rs.length + 1 := by simp
  rw [h1, List.range_succ, List.filter_append]
  have h2 : ((rs ++ [r])[rs.length]?).map AddReq.parent = some r.parent := by
    rw [List.getElem?_concat_length]
    rfl
  have h3 : (List.filter (fun i => decide (((rs ++ [r])[i]?).map AddReq.parent = some p))
      [rs.length]) = [] := by
    simp [h2, h]
  rw [h3, List.append_nil]
  exact List.filter_congr fun x hx => by
    have hxlt : x < rs.length := List.mem_range.mp hx
    simp [List.getElem?_append, hxlt]

theorem matchedFrom_eq_groupIdx (p : Option Nat) (rs : List AddReq) (items : List MenuItem)
    (hlen : items.length = rs.length)
    (hpar : ∀ i : Nat, (items[i]?).map MenuItem.parent = (rs[i]?).map AddReq.parent) :
    matchedFrom p items 0 = groupIdx rs p := by
  unfold matchedFrom groupIdx
  rw [List.range_eq_range', Nat.sub_zero, hlen]
  exact List.filter_congr fun x _ => by rw [hpar x]

/-! The construction invariant is preserved by one `s_menu_add_item` step. -/

/-- Core step: a state shaped like the pre-`rechain` state inside
`s_menu_add_item` (fresh item appended, populated and chained) satisfies
the full construction invariant after the `s_menu_rechain` call. -/
theorem constr_push (rs : List AddReq) (r : AddReq) (stOld st5 : MenuState)
    (hinv : ConstrInv rs stOld)
    (hstart5 : st5.handle.start = some 0)
    (hcur5 : st5.handle.current = some rs.length)
    (hlen5 : st5.items.length = rs.length + 1)
    (hch5 : FolChain st5.items)
    (hpar5 : ∀ i : Nat, (st5.items[i]?).map MenuItem.parent = ((rs ++ [r])[i]?).map AddReq.parent)
    (hkeep5 : ∀ i, i < rs.length →
      (st5.items[i]?).map MenuItem.prev = (stOld.items[i]?).map MenuItem.prev ∧
      (st5.items[i]?).map MenuItem.next = (stOld.items[i]?).map MenuItem.next) :
    ConstrInv (rs ++ [r]) (s_menu_rechain r.parent st5) := by
  have hrs' : (rs ++ [r]).length = rs.length + 1 := by simp
  obtain ⟨hlen6, hunt, hmem⟩ := rechain_spec r.parent st5 hch5 (by rw [hstart5, hlen5]; simp)
  have hbridge : matchedFrom r.parent st5.items 0 = groupIdx (rs ++ [r]) r.parent :=
    matchedFrom_eq_groupIdx r.parent (rs ++ [r]) st5.items (by rw [hlen5, hrs']) hpar5
  have hpres : ∀ j : Nat, ∀ g : MenuItem → Option Nat,
      (∀ (x : MenuItem) (a b : Option Nat), g { x with prev := a, next := b } = g x) →
      ((s_menu_rechain r.parent st5).items[j]?).map g = (st5.items[j]?).map g := by
    intro j g hg
    by_cases hjm : j ∈ matchedFrom r.parent st5.items 0
    · obtain ⟨k, hk, hnth⟩ := nth_of_mem _ j hjm
      rw [← hnth, hmem k hk]
      cases st5.items[nth (matchedFrom r.parent st5.items 0) k]? with
      | none => rfl
      | some x => simp [hg]
    · rw [hunt j hjm]
  refine { len := ?_, start := ?_, current := ?_, folow := ?_, par := ?_, rings := ?_ }
  · rw [hlen6, hlen5, hrs']
  · rw [rechain_handle, hstart5, hrs']
    simp
  · rw [rechain_handle, hcur5, hrs']
    simp
  · intro i hi
    rw [hpres i MenuItem.folowing fun x a b => rfl]
    have hilt : i < st5.items.length := by
      rw [hlen5]
      rw [hrs'] at hi
      omega
    obtain ⟨it5, hit5⟩ : ∃ it5, st5.items[i]? = some it5 :=
      ⟨st5.items[i], List.getElem?_eq_getElem hilt⟩
    rw [hit5]
    have hf := hch5 i it5 hit5
    rw [hlen5] at hf
    simp only [Option.map_some']
    rw [hf, hrs']
  · intro i
    rw [hpres i MenuItem.parent fun x a b => rfl, hpar5 i]
  · intro p k hk
    by_cases hp : r.parent = p
    · subst hp
      rw [← hbridge] at hk ⊢
      have hnthlt : nth (matchedFrom r.parent st5.items 0) k < st5.items.length := by
        have hmm := nth_mem _ k hk
        rw [mem_matchedFrom] at hmm
        exact hmm.1.2
      obtain ⟨it5, hit5⟩ : ∃ it5,
          st5.items[nth (matchedFrom r.parent st5.items 0) k]? = some it5 :=
        ⟨st5.items[nth (matchedFrom r.parent st5.items 0) k], List.getElem?_eq_getElem hnthlt⟩
      rw [hmem k hk, hit5]
      exact ⟨rfl, rfl⟩
    · have hne : r.parent ≠ p := hp
      rw [groupIdx_append_ne rs r p hne] at hk ⊢
      have hjmem : nth (groupIdx rs p) k ∈ groupIdx rs p := nth_mem _ k hk
      have hjfacts := (mem_groupIdx rs p _).mp hjmem
      have hjnotm : nth (groupIdx rs p) k ∉ matchedFrom r.parent st5.items 0 := by
        rw [mem_matchedFrom]
        rintro ⟨⟨_, _⟩, hparj⟩
        rw [hpar5] at hparj
        rw [List.getElem?_append] at hparj
        rw [if_pos hjfacts.1] at hparj
        rw [hjfacts.2] at hparj
        exact hne (by injection hparj with h2; exact h2.symm)
      obtain ⟨h5p, h5n⟩ := hkeep5 (nth (groupIdx rs p) k) hjfacts.1
      exact ⟨by rw [hunt _ hjnotm, h5p]; exact (hinv.rings p k hk).1,
        by rw [hunt _ hjnotm, h5n]; exact (hinv.rings p k hk).2⟩

/-! Shape facts about the pre-`rechain` item list of `s_menu_add_item`. -/

theorem items5_facts (rs : List AddReq) (r : AddReq) (st : MenuState) (hinv : ConstrInv rs st)
    (fresh : MenuItem) (hn1 : 1 ≤ rs.length) :
    (items5Of rs r st fresh).length = rs.length + 1 ∧
    FolChain (items5Of rs r st fresh) ∧
    (∀ i : Nat, ((items5Of rs r st fresh)[i]?).map MenuItem.parent =
      ((rs ++ [r])[i]?).map AddReq.parent) ∧
    (∀ i, i < rs.length →
      ((items5Of rs r st fresh)[i]?).map MenuItem.prev = (st.items[i]?).map MenuItem.prev ∧
      ((items5Of rs r st fresh)[i]?).map MenuItem.next = (st.items[i]?).map MenuItem.next) := by
  have hn : st.items.length = rs.length := hinv.len
  have hlen : (items5Of rs r st fresh).length = rs.length + 1 := by
    simp [items5Of, length_setItem, hn]
  have happn : (st.items ++ [fresh])[rs.length]? = some fresh := by
    rw [← hn]
    exact List.getElem?_concat_length _ _
  have hg : ∀ i : Nat, (items5Of rs r st fresh)[i]? =
      if i = rs.length then some (populateItem r fresh)
      else if i = rs.length - 1 then
        (st.items[i]?).map fun it => { it with folowing := some rs.length }
      else st.items[i]? := by
    intro i
    by_cases hi2 : i = rs.length
    · simp [items5Of, getElem?_setItem, hi2, happn,
        show ¬(rs.length = rs.length - 1) from by omega]
    · by_cases hi1 : i = rs.length - 1
      · simp [items5Of, getElem?_setItem, hi1, hi2,
          show ¬(rs.length - 1 = rs.length) from by omega,
          List.getElem?_append, show rs.length - 1 < st.items.length from by omega]
      · by_cases hi3 : i < rs.length
        · simp [items5Of, getElem?_setItem, hi1, hi2,
            List.getElem?_append, show i < st.items.length from by omega]
        · simp only [items5Of, getElem?_setItem, if_neg hi1, if_neg hi2]
          rw [List.getElem?_eq_none (show st.items.length ≤ i from by omega),
            List.getElem?_eq_none (show (st.items ++ [fresh]).length ≤ i from by
              rw [List.length_append]
              simp
              omega)]
  have hchain : FolChain (items5Of rs r st fresh) := by
    intro i it hi
    rw [hlen]
    rw [hg i] at hi
    by_cases hi2 : i = rs.length
    · rw [if_pos hi2] at hi
      injection hi with hi
      rw [← hi]
      simp [populateItem, hi2]
    · rw [if_neg hi2] at hi
      by_cases hi1 : i = rs.length - 1
      · rw [if_pos hi1] at hi
        cases hx : st.items[i]? with
        | none => rw [hx] at hi; simp at hi
        | some y =>
          rw [hx] at hi
          simp only [Option.map_some'] at hi
          injection hi with hi
          rw [← hi]
          show some rs.length = if i + 1 = rs.length + 1 then none else some (i + 1)
          rw [if_neg (show ¬(i + 1 = rs.length + 1) from by omega),
            show i + 1 = rs.length from by omega]
      · rw [if_neg hi1] at hi
        have hilt : i < rs.length := by
          by_contra hcon
          rw [List.getElem?_eq_none (show st.items.length ≤ i from by omega)] at hi
          simp at hi
        have hfol := hinv.folow i hilt
        rw [hi] at hfol
        simp only [Option.map_some'] at hfol
        injection hfol with hfol
        rw [hfol]
        rw [if_neg (show ¬(i + 1 = rs.length) from by omega),
          if_neg (show ¬(i + 1 = rs.length + 1) from by omega)]
  have hpar : ∀ i : Nat, ((items5Of rs r st fresh)[i]?).map MenuItem.parent =
      ((rs ++ [r])[i]?).map AddReq.parent := by
    intro i
    rw [hg i]
    by_cases hi2 : i = rs.length
    · rw [if_pos hi2, hi2, List.getElem?_concat_length]
      rfl
    · rw [if_neg hi2]
      by_cases hi3 : i < rs.length
      · have happ2 : (rs ++ [r])[i]? = rs[i]? := by
          rw [List.getElem?_append, if_pos hi3]
        rw [happ2]
        by_cases hi1 : i = rs.length - 1
        · rw [if_pos hi1, ← hinv.par i]
          cases st.items[i]? <;> simp
        · rw [if_neg hi1]
          exact hinv.par i
      · rw [if_neg (show ¬(i = rs.length - 1) from by omega)]
        rw [List.getElem?_eq_none (show st.items.length ≤ i from by omega),
          List.getElem?_eq_none (show (rs ++ [r]).length ≤ i from by
            rw [List.length_append]
            simp
            omega)]
        rfl
  have hkeep : ∀ i, i < rs.length →
      ((items5Of rs r st fresh)[i]?).map MenuItem.prev = (st.items[i]?).map MenuItem.prev ∧
      ((items5Of rs r st fresh)[i]?).map MenuItem.next = (st.items[i]?).map MenuItem.next := by
    intro i hilt
    rw [hg i, if_neg (show ¬(i = rs.length) from by omega)]
    by_cases hi1 : i = rs.length - 1
    · rw [if_pos hi1]
      constructor <;> (cases st.items[i]? <;> simp)
    · rw [if_neg hi1]
      exact ⟨rfl, rfl⟩
  exact ⟨hlen, hchain, hpar, hkeep⟩

/-! Behaviour of one `s_menu_add_item` call. -/

/-- On storage exhaustion (`s_create_new_item` returning the failure
value), `s_menu_add_item` returns `NULL` and the whole engine state —
every item and every handle field — is exactly unchanged. -/
theorem add_item_exhausted (cap : Nat) (r : AddReq) (st : MenuState)
    (h : cap ≤ st.handle.static_array_pos) :
    s_menu_add_item (.staticMem cap) r st = (none, st) := by
  simp [s_menu_add_item, s_create_new_item, h]

/-- A successful `s_menu_add_item` call returns the fresh index and
re-establishes the construction invariant for the extended request
list. -/
theorem add_item_success (mode : StoreMode) (rs : List AddReq) (r : AddReq) (st : MenuState)
    (hinv : ConstrInv rs st)
    (hok : ∀ cap, mode = .staticMem cap → st.handle.static_array_pos < cap) :
    (s_menu_add_item mode r st).1 = some rs.length ∧
    ConstrInv (rs ++ [r]) (s_menu_add_item mode r st).2 ∧
    (s_menu_add_item mode r st).2.handle.static_array_pos =
      (match mode with
       | .staticMem _ => st.handle.static_array_pos + 1
       | .dynamicMem => st.handle.static_array_pos) := by
  have hn : st.items.length = rs.length := hinv.len
  cases mode with
  | dynamicMem =>
    by_cases hn0 : rs.length = 0
    · have hrs : rs = [] := List.length_eq_zero.mp hn0
      subst hrs
      have hitems : st.items = [] := List.length_eq_zero.mp hn
      have hcur : st.handle.current = none := by
        have := hinv.current
        simpa using this
      have hstart : st.handle.start = none := by
        have := hinv.start
        simpa using this
      have hEQ : s_menu_add_item .dynamicMem r st =
          (some 0, s_menu_rechain r.parent
            { handle := { rotenc := st.handle.rotenc, current := some 0, start := some 0,
                          static_array_pos := st.handle.static_array_pos }
              items := [populateItem r r.junk] }) := by
        simp [s_menu_add_item, s_create_new_item, hitems, hcur, hstart, setItem]
      have hch5 : FolChain [populateItem r r.junk] := by
        intro i it hi
        cases i with
        | zero =>
          injection hi with hi
          rw [← hi]
          rfl
        | succ j => simp at hi
      have hpar5 : ∀ i : Nat, (([populateItem r r.junk] : List MenuItem)[i]?).map
          MenuItem.parent = ((([] : List AddReq) ++ [r])[i]?).map AddReq.parent := by
        intro i
        cases i with
        | zero => rfl
        | succ j => rfl
      constructor
      · rw [hEQ]
        rfl
      constructor
      · rw [hEQ]
        exact constr_push [] r st _ hinv rfl rfl rfl hch5 hpar5 (fun i hi => by simp at hi)
      · rw [hEQ]
        rfl
    · have hn1 : 1 ≤ rs.length := by omega
      have hcur : st.handle.current = some (rs.length - 1) := by
        rw [hinv.current, if_neg hn0]
      have hstart : st.handle.start = some 0 := by
        rw [hinv.start, if_neg hn0]
      have hEQ : s_menu_add_item .dynamicMem r st =
          (some rs.length, s_menu_rechain r.parent
            { handle := { rotenc := st.handle.rotenc, current := some rs.length, start := some 0,
                          static_array_pos := st.handle.static_array_pos }
              items := items5Of rs r st r.junk }) := by
        simp only [s_menu_add_item, s_create_new_item, items5Of]
        rw [hn, hcur, hstart]
      obtain ⟨hlen5, hch5, hpar5, hkeep5⟩ := items5_facts rs r st hinv r.junk hn1
      constructor
      · rw [hEQ]
      constructor
      · rw [hEQ]
        exact constr_push rs r st _ hinv rfl rfl hlen5 hch5 hpar5 hkeep5
      · rw [hEQ]
        rfl
  | staticMem cap =>
    have hlt : st.handle.static_array_pos < cap := hok cap rfl
    have hnge : ¬(st.handle.static_array_pos ≥ cap) := by omega
    by_cases hn0 : rs.length = 0
    · have hrs : rs = [] := List.length_eq_zero.mp hn0
      subst hrs
      have hitems : st.items = [] := List.length_eq_zero.mp hn
      have hcur : st.handle.current = none := by
        have := hinv.current
        simpa using this
      have hstart : st.handle.start = none := by
        have := hinv.start
        simpa using this
      have hEQ : s_menu_add_item (.staticMem cap) r st =
          (some 0, s_menu_rechain r.parent
            { handle := { rotenc := st.handle.rotenc, current := some 0, start := some 0,
                          static_array_pos := st.handle.static_array_pos + 1 }
              items := [populateItem r zeroMenuItem] }) := by
        simp [s_menu_add_item, s_create_new_item, hnge, hitems, hcur, hstart, setItem]
      have hch5 : FolChain [populateItem r zeroMenuItem] := by
        intro i it hi
        cases i with
        | zero =>
          injection hi with hi
          rw [← hi]
          rfl
        | succ j => simp at hi
      have hpar5 : ∀ i : Nat, (([populateItem r zeroMenuItem] : List MenuItem)[i]?).map
          MenuItem.parent = ((([] : List AddReq) ++ [r])[i]?).map AddReq.parent := by
        intro i
        cases i with
        | zero => rfl
        | succ j => rfl
      constructor
      · rw [hEQ]
        rfl
      constructor
      · rw [hEQ]
        exact constr_push [] r st _ hinv rfl rfl rfl hch5 hpar5 (fun i hi => by simp at hi)
      · rw [hEQ]
        rfl
    · have hn1 : 1 ≤ rs.length := by omega
      have hcur : st.handle.current = some (rs.length - 1) := by
        rw [hinv.current, if_neg hn0]
      have hstart : st.handle.start = some 0 := by
        rw [hinv.start, if_neg hn0]
      have hEQ : s_menu_add_item (.staticMem cap) r st =
          (some rs.length, s_menu_rechain r.parent
            { handle := { rotenc := st.handle.rotenc, current := some rs.length, start := some 0,
                          static_array_pos := st.handle.static_array_pos + 1 }
              items := items5Of rs r st zeroMenuItem }) := by
        simp only [s_menu_add_item, s_create_new_item, items5Of, if_neg hnge]
        rw [hn, hcur, hstart]
      obtain ⟨hlen5, hch5, hpar5, hkeep5⟩ := items5_facts rs r st hinv zeroMenuItem hn1
      constructor
      · rw [hEQ]
      constructor
      · rw [hEQ]
        exact constr_push rs r st _ hinv rfl rfl hlen5 hch5 hpar5 hkeep5
      · rw [hEQ]
        rfl

/-! Every construction run satisfies the invariant. -/

theorem build_inv (mode : StoreMode) (reqs : List AddReq) :
    ConstrInv (succReqs mode reqs) (buildState mode reqs) ∧
    (buildState mode reqs).handle.static_array_pos = posOf mode reqs := by
  induction reqs using List.reverseRecOn with
  | nil =>
    have hsucc : succReqs mode [] = [] := by
      cases mode <;> simp [succReqs]
    constructor
    · rw [hsucc]
      exact { len := rfl, start := rfl, current := rfl,
              folow := fun i hi => by simp at hi,
              par := fun i => rfl,
              rings := fun p k hk => by simp [groupIdx] at hk }
    · cases mode <;> simp [buildState, initState, posOf, succReqs]
  | append_singleton reqs r ih =>
    obtain ⟨hinv, hpos⟩ := ih
    have hstep : buildState mode (reqs ++ [r]) = (s_menu_add_item mode r (buildState mode reqs)).2 := by
      simp [buildState, List.foldl_append]
    cases mode with
    | dynamicMem =>
      obtain ⟨_, h2, h3⟩ := add_item_success .dynamicMem reqs r (buildState .dynamicMem reqs)
        hinv (fun cap hcap => by cases hcap)
      refine ⟨by rw [hstep]; exact h2, ?_⟩
      rw [hstep, h3]
      show (buildState StoreMode.dynamicMem reqs).handle.static_array_pos =
        posOf StoreMode.dynamicMem (reqs ++ [r])
      rw [hpos]
      rfl
    | staticMem cap =>
      by_cases hlt : reqs.length < cap
      · have hsucc : succReqs (.staticMem cap) reqs = reqs := by
          simp [succReqs, List.take_of_length_le (le_of_lt hlt)]
        have hsucc2 : succReqs (.staticMem cap) (reqs ++ [r]) = reqs ++ [r] := by
          have hle : (reqs ++ [r]).length ≤ cap := by
            rw [List.length_append]
            simp
            omega
          simp [succReqs, List.take_of_length_le hle]
        rw [hsucc] at hinv
        have hposlt : (buildState (.staticMem cap) reqs).handle.static_array_pos < cap := by
          rw [hpos]
          simp [posOf, succReqs, List.length_take]
          omega
        obtain ⟨_, h2, h3⟩ := add_item_success (.staticMem cap) reqs r
          (buildState (.staticMem cap) reqs) hinv
          (fun cap' hcap' => by injection hcap' with h4; rw [← h4]; exact hposlt)
        refine ⟨?_, ?_⟩
        · rw [hstep, hsucc2]
          exact h2
        · rw [hstep, h3]
          show (buildState (StoreMode.staticMem cap) reqs).handle.static_array_pos + 1 =
            posOf (StoreMode.staticMem cap) (reqs ++ [r])
          rw [hpos]
          simp only [posOf, hsucc, hsucc2]
          simp
      · have hge : cap ≤ (buildState (.staticMem cap) reqs).handle.static_array_pos := by
          rw [hpos]
          simp [posOf, succReqs, List.length_take]
          omega
        have hsucc3 : succReqs (.staticMem cap) (reqs ++ [r]) = succReqs (.staticMem cap) reqs := by
          simp only [succReqs]
          rw [List.take_append_eq_append_take]
          have h0 : cap - reqs.length = 0 := by omega
          rw [h0]
          simp
        rw [hstep, add_item_exhausted cap r _ hge]
        refine ⟨by rw [hsucc3]; exact hinv, ?_⟩
        rw [hpos]
        simp only [posOf, hsucc3]

/-! Arithmetic facts about the 32-bit wrappers, and rotenc preservation. -/

theorem toInt32_eq (n : Nat) (h : n < 2147483648) : toInt32 n = n := by
  simp only [toInt32]
  rw [Nat.mod_eq_of_lt (by omega)]
  rw [if_pos (by exact_mod_cast h)]

theorem swrap32_eq (z : Int) (h1 : -2147483648 ≤ z) (h2 : z < 2147483648) : swrap32 z = z := by
  simp only [swrap32]
  split_ifs with h <;> omega

theorem uwrap32_eq (z : Int) (h1 : 0 ≤ z) (h2 : z < 4294967296) : uwrap32 z = z.toNat := by
  simp only [uwrap32]
  rw [Int.emod_eq_of_lt h1 h2]

theorem pos_handling_rotenc (st : MenuState) :
    (s_menu_position_handling st).1.handle.rotenc = st.handle.rotenc := by
  simp only [s_menu_position_handling]
  split_ifs with h1 h2
  · rcases hcur : st.handle.current with _ | i
    · simp [hcur]
    · rcases hit : st.items[i]? with _ | it <;> simp [hcur, hit]
  · rcases hcur : st.handle.current with _ | i
    · simp [hcur]
    · rcases hit : st.items[i]? with _ | it <;> simp [hcur, hit]
  · rfl

theorem encoder_accept_rotenc (c : Nat) (st : MenuState)
    (hcond : (c / ENCODER_INPUT_FILTER) * ENCODER_INPUT_FILTER = c) :
    ((s_rotary_encoder_callback c st).1).handle.rotenc =
      { current := uwrap32 ((st.handle.rotenc.current : Int) +
          swrap32 (toInt32 (c / 2) - toInt32 st.handle.rotenc.current))
        prev := st.handle.rotenc.current
        delta := swrap32 (toInt32 (c / 2) - toInt32 st.handle.rotenc.current) } := by
  simp only [s_rotary_encoder_callback]
  rw [if_neg (show ¬((c / ENCODER_INPUT_FILTER) * ENCODER_INPUT_FILTER ≠ c) from
    fun hn => hn hcond)]
  rcases hcur : st.handle.current with _ | i
  · simp [hcur]
  · rcases hit : st.items[i]? with _ | it
    · simp [hcur, hit]
    · rcases hcb : it.callback with _ | cb
      · simp [hcur, hit, hcb, pos_handling_rotenc]
      · simp [hcur, hit, hcb]

/-- C3: a raw reading that is not a multiple of the filter factor is
rejected with no state change and no event; a multiple is accepted and
updates the encoder state by `delta = raw/2 - position;
position += delta` (so position becomes `raw/2`), saving the old position
in `prev`.  The position bound `2^31` holds in every reachable state
because an accepted position is always `raw/2 < 2^31`. -/
theorem encoder_filter_spec (c : Nat) (st : MenuState) (hc : c < 4294967296)
    (hpos : st.handle.rotenc.current < 2147483648) :
    (¬ ENCODER_INPUT_FILTER ∣ c → s_rotary_encoder_callback c st = (st, [])) ∧
    (ENCODER_INPUT_FILTER ∣ c →
      ((s_rotary_encoder_callback c st).1).handle.rotenc.delta =
        ((c / 2 : Nat) : Int) - (st.handle.rotenc.current : Int) ∧
      ((s_rotary_encoder_callback c st).1).handle.rotenc.current = c / 2 ∧
      ((s_rotary_encoder_callback c st).1).handle.rotenc.prev = st.handle.rotenc.current) := by
  constructor
  · intro hdiv
    have hne : (c / ENCODER_INPUT_FILTER) * ENCODER_INPUT_FILTER ≠ c := by
      intro hEq
      exact hdiv ⟨c / ENCODER_INPUT_FILTER, by
        simp only [ENCODER_INPUT_FILTER] at hEq ⊢
        omega⟩
    simp [s_rotary_encoder_callback, hne]
  · intro hdiv
    have hcond : (c / ENCODER_INPUT_FILTER) * ENCODER_INPUT_FILTER = c := by
      obtain ⟨k, hk⟩ := hdiv
      simp only [ENCODER_INPUT_FILTER] at hk ⊢
      omega
    have hrot := encoder_accept_rotenc c st hcond
    have ht1 : toInt32 (c / 2) = ((c / 2 : Nat) : Int) := toInt32_eq _ (by omega)
    have ht2 : toInt32 st.handle.rotenc.current = (st.handle.rotenc.current : Int) :=
      toInt32_eq _ hpos
    have hposZ : (st.handle.rotenc.current : Int) < 2147483648 := by exact_mod_cast hpos
    have hc2 : ((c / 2 : Nat) : Int) < 2147483648 := by
      have : c / 2 < 2147483648 := by omega
      exact_mod_cast this
    have hsw : swrap32 (toInt32 (c / 2) - toInt32 st.handle.rotenc.current) =
        ((c / 2 : Nat) : Int) - (st.handle.rotenc.current : Int) := by
      rw [ht1, ht2]
      apply swrap32_eq
      · have h0 : (0 : Int) ≤ ((c / 2 : Nat) : Int) := by positivity
        omega
      · have h0 : (0 : Int) ≤ (st.handle.rotenc.current : Int) := by positivity
        omega
    refine ⟨?_, ?_, ?_⟩
    · rw [hrot]
      exact hsw
    · rw [hrot]
      show uwrap32 ((st.handle.rotenc.current : Int) +
        swrap32 (toInt32 (c / 2) - toInt32 st.handle.rotenc.current)) = c / 2
      rw [hsw]
      have harg : (st.handle.rotenc.current : Int) +
          (((c / 2 : Nat) : Int) - (st.handle.rotenc.current : Int)) = ((c / 2 : Nat) : Int) := by
        ring
      rw [harg, uwrap32_eq _ (by positivity) (by omega)]
      omega
    · rw [hrot]

/-- C3 witness: with the configured filter factor 2 and the zeroed start
state, raw reading 5 is rejected outright and raw reading 4 is accepted,
setting the position to 2. -/
theorem encoder_filter_spec_witness :
    s_rotary_encoder_callback 5 initState = (initState, []) ∧
    ((s_rotary_encoder_callback 4 initState).1).handle.rotenc.current = 4 / 2 :=
  ⟨(encoder_filter_spec 5 initState (by decide) (by decide)).1 (by decide),
   ((encoder_filter_spec 4 initState (by decide) (by decide)).2 (by decide)).2.1⟩

/-- C4: on an accepted encoder tick, a set callback on the focused item
is invoked and the focus does not move along the ring; with no callback,
the focus moves to `next` when the stored `delta` is positive, to `prev`
when negative, and stays put when zero, after which one render is
requested. -/
theorem encoder_tick_dispatch (c : Nat) (st : MenuState) (i : Nat) (it : MenuItem)
    (hdiv : ENCODER_INPUT_FILTER ∣ c)
    (hcur : st.handle.current = some i) (hit : st.items[i]? = some it) :
    (it.callback = none →
      (s_rotary_encoder_callback c st).1.handle.current =
        (if (s_rotary_encoder_callback c st).1.handle.rotenc.delta > 0 then it.next
         else if (s_rotary_encoder_callback c st).1.handle.rotenc.delta < 0 then it.prev
         else some i) ∧
      (∃ t1 t2, (s_rotary_encoder_callback c st).2 = [MenuEvent.render t1 t2])) ∧
    (∀ cb, it.callback = some cb →
      (s_rotary_encoder_callback c st).1.handle.current = some i ∧
      (s_rotary_encoder_callback c st).2 = [MenuEvent.callbackCall cb]) := by
  have hcond : (c / ENCODER_INPUT_FILTER) * ENCODER_INPUT_FILTER = c := by
    obtain ⟨k, hk⟩ := hdiv
    simp only [ENCODER_INPUT_FILTER] at hk ⊢
    omega
  have hne : ¬((c / ENCODER_INPUT_FILTER) * ENCODER_INPUT_FILTER ≠ c) := fun hn => hn hcond
  constructor
  · intro hcb
    have hres : s_rotary_encoder_callback c st =
        s_menu_position_handling
          { handle :=
              { rotenc :=
                  { current := uwrap32 ((st.handle.rotenc.current : Int) +
                      swrap32 (toInt32 (c / 2) - toInt32 st.handle.rotenc.current)),
                    prev := st.handle.rotenc.current,
                    delta := swrap32 (toInt32 (c / 2) - toInt32 st.handle.rotenc.current) },
                current := some i,
                start := st.handle.start,
                static_array_pos := st.handle.static_array_pos },
            items := st.items } := by
      simp [s_rotary_encoder_callback, hne, hcur, hit, hcb]
    rw [hres]
    constructor
    · rw [pos_handling_rotenc]
      simp only [s_menu_position_handling]
      split_ifs
      · simp [hit]
      · simp [hit]
      · simp
    · simp only [s_menu_position_handling]
      exact ⟨_, _, rfl⟩
  · intro cb hcb
    constructor
    · simp [s_rotary_encoder_callback, hne, hcur, hit, hcb]
    · simp [s_rotary_encoder_callback, hne, hcur, hit, hcb]

/-- C4 witness: with reading 4 (accepted, `delta = 2 > 0`) a two-item
ring without callbacks moves the focus forward to item 1, while a focused
item carrying callback id 7 gets its callback invoked instead. -/
theorem encoder_tick_dispatch_witness :
    (s_rotary_encoder_callback 4 stNav).1.handle.current = some 1 ∧
    (s_rotary_encoder_callback 4 stCb).2 = [MenuEvent.callbackCall 7] := by
  constructor
  · rw [((encoder_tick_dispatch 4 stNav 0 (mkItem [83] (some 1) (some 1) none none 0 none)
      (by decide) rfl (by decide)).1 rfl).1]
    decide
  · exact ((encoder_tick_dispatch 4 stCb 0 (mkItem [83] (some 0) (some 0) none none 0 (some 7))
      (by decide) rfl (by decide)).2 7 rfl).2

/-- C5: a short press descends to the child when the child pointer is set
and the `MENU_FLAG_GOTO_CHILD` capability is present, else ascends to the
parent when the parent pointer is set and `MENU_FLAG_GOTO_PARENT` is
present, else leaves the focus unchanged; a render always follows. -/
theorem short_press_spec (st : MenuState) (i : Nat) (it : MenuItem)
    (hcur : st.handle.current = some i) (hit : st.items[i]? = some it) :
    (s_push_button_callback st).1.handle.current =
      (if it.child ≠ none ∧ it.flags &&& MENU_FLAG_GOTO_CHILD = MENU_FLAG_GOTO_CHILD then it.child
       else if it.parent ≠ none ∧ it.flags &&& MENU_FLAG_GOTO_PARENT = MENU_FLAG_GOTO_PARENT
       then it.parent
       else some i) ∧
    ∃ t1 t2, (s_push_button_callback st).2 = [MenuEvent.render t1 t2] := by
  constructor
  · simp only [s_push_button_callback]
    simp only [hcur, hit]
    split_ifs <;> simp [hcur]
  · simp only [s_push_button_callback]
    exact ⟨_, _, rfl⟩

/-- C5 witness: the spec's descent/ascent scenario — a short press on
"Options" (child = "Back", descend flag set) moves focus to "Back"; a
further short press on "Back" (parent = "Options", ascend flag set)
returns focus to "Options". -/
theorem short_press_spec_witness :
    (s_push_button_callback stOpts).1.handle.current = some 1 ∧
    (s_push_button_callback stOptsBack).1.handle.current = some 0 := by
  constructor
  · rw [(short_press_spec stOpts 0
      (mkItem [79] (some 0) (some 0) none (some 1) MENU_FLAG_GOTO_CHILD none) rfl (by decide)).1]
    decide
  · rw [(short_press_spec stOptsBack 1
      (mkItem [66] (some 1) (some 1) (some 0) none MENU_FLAG_GOTO_PARENT none) rfl (by decide)).1]
    decide

/-- C6: a long press jumps to the parent when one exists and otherwise to
`start`, regardless of any capability flags, and a render follows in both
branches. -/
theorem long_press_spec (st : MenuState) (i : Nat) (it : MenuItem)
    (hcur : st.handle.current = some i) (hit : st.items[i]? = some it) :
    (s_long_push_button_callback st).1.handle.current =
      (match it.parent with
       | some pp => some pp
       | none => st.handle.start) ∧
    ∃ t1 t2, (s_long_push_button_callback st).2 = [MenuEvent.render t1 t2] := by
  constructor
  · simp only [s_long_push_button_callback]
    simp only [hcur, hit]
    rcases hp : it.parent with _ | pp <;> simp [hp, hcur]
  · simp only [s_long_push_button_callback]
    exact ⟨_, _, rfl⟩

/-- C6 witness: a long press while the root item (no parent) is focused
re-focuses `start` — the root itself — without error. -/
theorem long_press_spec_witness :
    (s_long_push_button_callback stRoot).1.handle.current = stRoot.handle.start ∧
    stRoot.handle.start = some 0 := by
  constructor
  · exact (long_press_spec stRoot 0 (mkItem [83] (some 0) (some 0) none none 0 none)
      rfl (by decide)).1
  · rfl

/-! Cyclic-position arithmetic and group nodup, used to derive ring
closure for single items. -/

theorem groupIdx_nodup (rs : List AddReq) (p : Option Nat) : (groupIdx rs p).Nodup :=
  List.Nodup.filter _ (List.nodup_range _)

theorem mod_succ_pred (k r : Nat) (h : k < r) : ((k + 1) % r + r - 1) % r = k := by
  by_cases h2 : k + 1 = r
  · rw [h2, Nat.mod_self]
    rw [ringIdx_first_prev_mod r (by omega)]
    omega
  · rw [Nat.mod_eq_of_lt (show k + 1 < r by omega)]
    rw [ringIdx_prev_mod (k + 1) r (by omega) (by omega)]
    omega

theorem mod_pred_succ (k r : Nat) (h : k < r) : ((k + r - 1) % r + 1) % r = k := by
  by_cases h2 : k = 0
  · subst h2
    rw [ringIdx_first_prev_mod r (by omega)]
    rw [ringIdx_last_next_mod r (by omega)]
  · rw [ringIdx_prev_mod k r (by omega) h]
    rw [show k - 1 + 1 = k from by omega]
    exact Nat.mod_eq_of_lt h

/-- C1: after any sequence of `s_menu_add_item` calls from the zeroed
initial state (in either storage mode), every item of the arena sits in a
closed sibling ring: its `next` points to an item whose `prev` points
back, its `prev` points to an item whose `next` points back, and an item
that is the only one with its parent value loops to itself in both
directions. -/
theorem ring_closure_after_add (mode : StoreMode) (reqs : List AddReq) (i : Nat)
    (h : i < (buildState mode reqs).items.length) :
    ∃ it, (buildState mode reqs).items[i]? = some it ∧
      (∃ j jt, it.next = some j ∧ (buildState mode reqs).items[j]? = some jt ∧
        jt.prev = some i) ∧
      (∃ j jt, it.prev = some j ∧ (buildState mode reqs).items[j]? = some jt ∧
        jt.next = some i) ∧
      ((∀ j jt, (buildState mode reqs).items[j]? = some jt → jt.parent = it.parent → j = i) →
        it.prev = some i ∧ it.next = some i) := by
  obtain ⟨hinv, -⟩ := build_inv mode reqs
  obtain ⟨it, hit⟩ : ∃ it, (buildState mode reqs).items[i]? = some it :=
    ⟨(buildState mode reqs).items[i], List.getElem?_eq_getElem h⟩
  have hilt : i < (succReqs mode reqs).length := by
    rw [← hinv.len]
    exact h
  have hpari : ((succReqs mode reqs)[i]?).map AddReq.parent = some it.parent := by
    rw [← hinv.par i, hit]
    rfl
  set g := groupIdx (succReqs mode reqs) it.parent with hgdef
  have himem : i ∈ g := (mem_groupIdx _ _ _).mpr ⟨hilt, hpari⟩
  obtain ⟨k, hk, hnth⟩ := nth_of_mem _ i himem
  have hrpos : 0 < g.length := by omega
  have hring := hinv.rings it.parent k hk
  rw [← hgdef, hnth, hit] at hring
  simp only [Option.map_some', Option.some.injEq] at hring
  have hlook : ∀ x, x ∈ g → ∃ xt, (buildState mode reqs).items[x]? = some xt := by
    intro x hx
    have hxlt : x < (buildState mode reqs).items.length := by
      rw [hinv.len]
      exact ((mem_groupIdx _ _ _).mp hx).1
    exact ⟨(buildState mode reqs).items[x], List.getElem?_eq_getElem hxlt⟩
  refine ⟨it, hit, ?_, ?_, ?_⟩
  · have hklt : (k + 1) % g.length < g.length := Nat.mod_lt _ hrpos
    obtain ⟨jt, hjt⟩ := hlook _ (nth_mem g _ hklt)
    have hring2 := hinv.rings it.parent ((k + 1) % g.length) hklt
    rw [← hgdef, hjt] at hring2
    simp only [Option.map_some', Option.some.injEq] at hring2
    refine ⟨nth g ((k + 1) % g.length), jt, hring.2, hjt, ?_⟩
    rw [hring2.1, mod_succ_pred k g.length (by omega), hnth]
  · have hklt : (k + g.length - 1) % g.length < g.length := Nat.mod_lt _ hrpos
    obtain ⟨jt, hjt⟩ := hlook _ (nth_mem g _ hklt)
    have hring2 := hinv.rings it.parent ((k + g.length - 1) % g.length) hklt
    rw [← hgdef, hjt] at hring2
    simp only [Option.map_some', Option.some.injEq] at hring2
    refine ⟨nth g ((k + g.length - 1) % g.length), jt, hring.1, hjt, ?_⟩
    rw [hring2.2, mod_pred_succ k g.length (by omega), hnth]
  · intro huniq
    have hgall : ∀ x, x ∈ g → x = i := by
      intro x hx
      obtain ⟨hxlt, hxpar⟩ := (mem_groupIdx _ _ _).mp hx
      obtain ⟨xt, hxt⟩ := hlook x hx
      have hxp : xt.parent = it.parent := by
        have hpx := hinv.par x
        rw [hxt, hxpar] at hpx
        simpa using hpx
      exact huniq x xt hxt hxp
    have hgnd : g.Nodup := groupIdx_nodup _ _
    have hgeq : g = [i] := by
      cases hgc : g with
      | nil =>
        rw [hgc] at himem
        simp at himem
      | cons a l =>
        have ha : a = i := hgall a (by rw [hgc]; exact List.mem_cons_self _ _)
        have hl : l = [] := by
          cases hlc : l with
          | nil => rfl
          | cons b l2 =>
            have hb : b = i :=
              hgall b (by rw [hgc, hlc]; exact List.mem_cons_of_mem _ (List.mem_cons_self _ _))
            rw [hgc, hlc] at hgnd
            have hnotin := (List.nodup_cons.mp hgnd).1
            exact absurd (by rw [ha, ← hb]; exact List.mem_cons_self _ _) hnotin
        rw [ha, hl]
    have h1 := hinv.rings it.parent 0 (by rw [← hgdef, hgeq]; simp)
    rw [← hgdef, hgeq] at h1
    simp only [nth, List.length_singleton] at h1
    norm_num at h1
    obtain ⟨⟨x1, hx1, hx1p⟩, x2, hx2, hx2n⟩ := h1
    rw [hit] at hx1 hx2
    injection hx1 with hx1
    injection hx2 with hx2
    exact ⟨hx1 ▸ hx1p, hx2 ▸ hx2n⟩

/-- C1 witness: three items where item 2 is the only child of item 0 —
item 2 forms a singleton self-ring and the theorem's closure properties
hold for it. -/
theorem ring_closure_after_add_witness :
    2 < (buildState .dynamicMem reqsWithChild).items.length ∧
    (∃ it, (buildState .dynamicMem reqsWithChild).items[2]? = some it ∧
      (∃ j jt, it.next = some j ∧ (buildState .dynamicMem reqsWithChild).items[j]? = some jt ∧
        jt.prev = some 2) ∧
      (∃ j jt, it.prev = some j ∧ (buildState .dynamicMem reqsWithChild).items[j]? = some jt ∧
        jt.next = some 2) ∧
      ((∀ j jt, (buildState .dynamicMem reqsWithChild).items[j]? = some jt →
          jt.parent = it.parent → j = 2) → it.prev = some 2 ∧ it.next = some 2)) :=
  ⟨by decide, ring_closure_after_add .dynamicMem reqsWithChild 2 (by decide)⟩

/-- C2: if exactly three requests carry parent `P`, in creation order
`a`, `b`, `c`, then after the whole construction the ring reads
`a → b → c → a` forward and `a → c → b → a` backward — ring order is
creation order. -/
theorem ring_order_eq_creation_order (mode : StoreMode) (reqs : List AddReq) (P : Option Nat)
    (a b c : Nat) (h : groupIdx (succReqs mode reqs) P = [a, b, c]) :
    ((buildState mode reqs).items[a]?).map MenuItem.next = some (some b) ∧
    ((buildState mode reqs).items[b]?).map MenuItem.next = some (some c) ∧
    ((buildState mode reqs).items[c]?).map MenuItem.next = some (some a) ∧
    ((buildState mode reqs).items[a]?).map MenuItem.prev = some (some c) ∧
    ((buildState mode reqs).items[b]?).map MenuItem.prev = some (some a) ∧
    ((buildState mode reqs).items[c]?).map MenuItem.prev = some (some b) := by
  obtain ⟨hinv, -⟩ := build_inv mode reqs
  have h0 := hinv.rings P 0 (by rw [h]; simp)
  have h1 := hinv.rings P 1 (by rw [h]; simp)
  have h2 := hinv.rings P 2 (by rw [h]; simp)
  rw [h] at h0 h1 h2
  simp only [nth, List.length_cons, List.length_nil] at h0 h1 h2
  norm_num at h0 h1 h2
  refine ⟨?_, ?_, ?_, ?_, ?_, ?_⟩
  · obtain ⟨x, hx, hxn⟩ := h0.2
    rw [hx, Option.map_some', hxn]
  · obtain ⟨x, hx, hxn⟩ := h1.2
    rw [hx, Option.map_some', hxn]
  · obtain ⟨x, hx, hxn⟩ := h2.2
    rw [hx, Option.map_some', hxn]
  · obtain ⟨x, hx, hxp⟩ := h0.1
    rw [hx, Option.map_some', hxp]
  · obtain ⟨x, hx, hxp⟩ := h1.1
    rw [hx, Option.map_some', hxp]
  · obtain ⟨x, hx, hxp⟩ := h2.1
    rw [hx, Option.map_some', hxp]

/-- C2 witness: requests A, B, C all at root level build the root ring
[0, 1, 2] in creation order, with the six link equations holding. -/
theorem ring_order_eq_creation_order_witness :
    groupIdx (succReqs .dynamicMem reqsABC) none = [0, 1, 2] ∧
    (((buildState .dynamicMem reqsABC).items[0]?).map MenuItem.next = some (some 1) ∧
     ((buildState .dynamicMem reqsABC).items[1]?).map MenuItem.next = some (some 2) ∧
     ((buildState .dynamicMem reqsABC).items[2]?).map MenuItem.next = some (some 0) ∧
     ((buildState .dynamicMem reqsABC).items[0]?).map MenuItem.prev = some (some 2) ∧
     ((buildState .dynamicMem reqsABC).items[1]?).map MenuItem.prev = some (some 0) ∧
     ((buildState .dynamicMem reqsABC).items[2]?).map MenuItem.prev = some (some 1)) :=
  ⟨by decide, ring_order_eq_creation_order .dynamicMem reqsABC none 0 1 2 (by decide)⟩

/-- C7: once the fixed-capacity store has handed out `cap` items
(`static_array_pos ≥ cap`), `s_menu_add_item` returns the failure value
`NULL` and the entire engine state — every existing item's fields and
every handle field — is exactly as before the call. -/
theorem add_item_exhaustion_no_mutation (cap : Nat) (r : AddReq) (st : MenuState)
    (h : cap ≤ st.handle.static_array_pos) :
    s_menu_add_item (.staticMem cap) r st = (none, st) :=
  add_item_exhausted cap r st h

/-- C7 witness: with capacity 2, after two successful adds the allocator
cursor is 2, and the third `s_menu_add_item` fails leaving the built
state untouched. -/
theorem add_item_exhaustion_no_mutation_witness :
    2 ≤ (buildState (.staticMem 2) [mkReq [65] none 0, mkReq [66] none 0]).handle.static_array_pos ∧
    s_menu_add_item (.staticMem 2) (mkReq [67] none 0)
      (buildState (.staticMem 2) [mkReq [65] none 0, mkReq [66] none 0]) =
      (none, buildState (.staticMem 2) [mkReq [65] none 0, mkReq [66] none 0]) :=
  ⟨by decide, add_item_exhaustion_no_mutation 2 (mkReq [67] none 0) _ (by decide)⟩

/-- C8 divergence: adding an item whose title is exactly 16 non-zero
bytes stores all 16 bytes into the fixed 16-byte `title` buffer with no
zero byte anywhere in it — `strncpy(dst, src, 16)` into a `char[16]`
does not null-terminate a source that fills the buffer, so the stored
title is unterminated. -/
theorem long_title_stored_unterminated :
    ((buildState .dynamicMem [mkReq longTitle none 0]).items[0]?).map MenuItem.title =
      some longTitle ∧
    longTitle.length = MENU_ITEM_TITLE_LEN ∧ (0 : Nat) ∉ longTitle :=
  ⟨by decide, by decide, by decide⟩

/-- C9 divergence: with two items in the build-order chain, the teardown
loop `while (item->folowing)` frees only index 0 and exits while pointing
at item 1, which is never released — the last chain item always leaks. -/
theorem teardown_leaks_last_item :
    s_menu_free_items (buildState .dynamicMem [mkReq [65] none 0, mkReq [66] none 0]) = [0] ∧
    (buildState .dynamicMem [mkReq [65] none 0, mkReq [66] none 0]).items.length = 2 :=
  ⟨by decide, by decide⟩

/-- C10 counterexample: in the dynamic mode actually selected by the
build configuration, `malloc` performs no initialisation — allocating
from a heap cell whose `data` byte happens to hold 7 returns an item with
`data = 7 ≠ 0`, so the freshly allocated item is not in a zero state. -/
theorem dynamic_alloc_not_zeroed :
    (match s_create_new_item .dynamicMem junkItem initState with
     | some (i, st) => (st.items[i]?).map MenuItem.data
     | none => none) = some 7 ∧ (7 : Nat) ≠ 0 :=
  ⟨by decide, by decide⟩

/-- C10 amended: in the fixed-capacity mode, every item handed out by
`s_create_new_item` is fully zeroed at the moment it is returned, because
the static array is zero-initialised and each slot is handed out exactly
once. -/
theorem static_alloc_zeroed (cap : Nat) (junk : MenuItem) (st : MenuState) (i : Nat)
    (st2 : MenuState) (h : s_create_new_item (.staticMem cap) junk st = some (i, st2)) :
    st2.items[i]? = some zeroMenuItem := by
  simp only [s_create_new_item] at h
  by_cases hge : st.handle.static_array_pos ≥ cap
  · rw [if_pos hge] at h
    exact absurd h (by simp)
  · rw [if_neg hge] at h
    simp only [Option.some.injEq, Prod.mk.injEq] at h
    obtain ⟨h1, h2⟩ := h
    subst h2
    rw [← h1]
    exact List.getElem?_concat_length _ _

/-- C10 amended witness: a capacity-1 fixed store hands out its single
slot holding the all-zero item. -/
theorem static_alloc_zeroed_witness :
    s_create_new_item (.staticMem 1) zeroMenuItem initState = some (0, stAlloc1) ∧
    stAlloc1.items[0]? = some zeroMenuItem :=
  ⟨by decide, static_alloc_zeroed 1 zeroMenuItem initState 0 stAlloc1 (by decide)⟩

end MenuModel
